import Mathlib

/-!
# To-do list component (`src/pages/To-do.jsx`)

A shallow embedding of the `ToDo` React component: its five pieces of
`useState` state, the form validation, the three handlers that talk to the
remote service, the cancel button, and the derived "time remaining" label.

Conventions of the embedding.

* JavaScript strings are Lean `String`s.  Every character that
  `String.prototype.trim` strips lies in the Basic Multilingual Plane, so the
  difference between UTF-16 code units and Unicode scalar values does not
  matter for trimming.
* `null` (the initial `editingTaskId`) and an absent `_id` property are `none`.
* A handler runs to completion on one event.  The network is a parameter
  `fetch : Request → FetchResult`, and every handler returns the new state
  together with the trace of the effects it performed, in order.
* Instants are integer milliseconds since the epoch, as in `Date`; an Invalid
  Date (time value `NaN`) is `none`.
* Arithmetic on instants is the arithmetic of JavaScript numbers: every result
  is rounded to the nearest double (`toDouble`), a rational number here.
-/

namespace ToDo

/-! ## Data model -/

/-- A task record as returned by the service (`task._id`, `task.title`, ...). -/
structure Task where
  _id : String
  title : String
  description : String
  dueDate : String
  priority : String
  deriving DecidableEq, Repr

/-- The object held in `newTask` and `editedTask`.  `handleEditTask` stores a
whole task (with its `_id`) in `editedTask`; the literal
`{ title: '', description: '', dueDate: '', priority: 'medium' }` has no `_id`. -/
structure Draft where
  _id : Option String
  title : String
  description : String
  dueDate : String
  priority : String
  deriving DecidableEq, Repr

/-- The literal `{ title: '', description: '', dueDate: '', priority: 'medium' }`. -/
def emptyDraft : Draft :=
  { _id := none, title := "", description := "", dueDate := "", priority := "medium" }

/-- A task object seen as the value of `editedTask` (`setEditedTask(task)`). -/
def Task.toDraft (t : Task) : Draft :=
  { _id := some t._id, title := t.title, description := t.description,
    dueDate := t.dueDate, priority := t.priority }

/-- The `errors` object: its own properties in insertion order. -/
abbrev Errors := List (String × String)

/-- `Object.keys(errors)`. -/
def Errors.keys (e : Errors) : List String := e.map Prod.fst

/-- The state of the component: the five `useState` cells (lines 6-20). -/
structure State where
  tasks : List Task
  newTask : Draft
  errors : Errors
  editingTaskId : Option String
  editedTask : Draft
  deriving DecidableEq, Repr

/-- The initial values passed to `useState`. -/
def State.initial : State :=
  { tasks := [], newTask := emptyDraft, errors := [], editingTaskId := none,
    editedTask := emptyDraft }

/-! ## `String.prototype.trim` -/

/-- The code points of ECMAScript `WhiteSpace` and `LineTerminator`, which are
what `trim` removes from both ends. -/
def isJsWhiteSpace (c : Char) : Bool :=
  let n := c.toNat
  n == 0x09 || n == 0x0A || n == 0x0B || n == 0x0C || n == 0x0D || n == 0x20 ||
  n == 0xA0 || n == 0x1680 || (0x2000 ≤ n && n ≤ 0x200A) || n == 0x2028 ||
  n == 0x2029 || n == 0x202F || n == 0x205F || n == 0x3000 || n == 0xFEFF

/-- `s.trim()`. -/
def jsTrim (s : String) : String :=
  String.mk ((s.data.dropWhile isJsWhiteSpace).reverse.dropWhile isJsWhiteSpace).reverse

/-- Truthiness of a JavaScript string: only `''` is falsy. -/
def truthy (s : String) : Bool := !(s == "")

/-! ## `validateForm` (lines 22-35) -/

/-- The object `newErrors` built by `validateForm` from `newTask`. -/
def newErrors (d : Draft) : Errors :=
  (if !truthy (jsTrim d.title) then [("title", "Title is required")] else []) ++
  (if !truthy (jsTrim d.description) then [("description", "Description is required")] else []) ++
  (if !truthy d.dueDate then [("dueDate", "Due date is required")] else [])

/-- `validateForm()`: stores `newErrors` with `setErrors` and returns
`Object.keys(newErrors).length === 0`. -/
def validateForm (s : State) : State × Bool :=
  let e := newErrors s.newTask
  ({ s with errors := e }, e.keys.length == 0)

/-! ## `calculateTimeRemaining` (lines 115-128) -/

/-- The range of the time value of a valid `Date` (ECMAScript `TimeClip`):
at most 8.64e15 ms on either side of the epoch. -/
def isTimeValue (t : Int) : Bool :=
  decide (-8640000000000000 ≤ t ∧ t ≤ 8640000000000000)

/-- Rounding of a number to the nearest integer, a tie going to the even one. -/
def roundHalfEven (x : ℚ) : Int :=
  let f := Int.floor x
  if x - f < 1 / 2 then f
  else if 1 / 2 < x - f then f + 1
  else if f % 2 = 0 then f else f + 1

/-- The spacing of the doubles in the binade of `x`: with 53 significant bits,
`2 ^ (e - 52)` where `2 ^ e ≤ |x| < 2 ^ (e + 1)`. -/
def ulp (x : ℚ) : ℚ := 2 ^ (Int.log 2 |x| - 52)

/-- The value of a JavaScript number operation whose exact result is `x`: the
IEEE 754 binary64 number nearest to `x`, ties to the even significand.  The
exponent is not bounded here; the magnitudes that arise from time values lie
between `2 ^ (-27)` and `2 ^ 54`, far from overflow and from subnormals. -/
def toDouble (x : ℚ) : ℚ :=
  if x = 0 then 0 else roundHalfEven (x / ulp x) * ulp x

/-- `Math.ceil(timeDiff / (1000 * 60 * 60 * 24))` for `timeDiff = due - now`,
the subtraction and the division each rounded to a double.  The two instants
are time values, integers below `2 ^ 53` and so doubles themselves, and the
product `1000 * 60 * 60 * 24` is exact.  `Math.ceil` gives an integral double;
its `-0` compares as `0`. -/
def daysRemaining (now due : Int) : Int :=
  Int.ceil (toDouble (toDouble ((due - now : Int) : ℚ) / (1000 * 60 * 60 * 24)))

/-- `calculateTimeRemaining(dueDate)`, with the clock reading `now` and the time
value of `new Date(dueDate)` as arguments.  For an Invalid Date every
comparison with `NaN` is false, which leaves the last branch with the
singular form. -/
def calculateTimeRemaining (now : Int) (due : Option Int) : String :=
  match due with
  | none => "NaN" ++ " day" ++ "" ++ " remaining"
  | some due =>
    let d := daysRemaining now due
    if d < 0 then "Overdue"
    else if d = 0 then "Due today"
    else toString d ++ " day" ++ (if d > 1 then "s" else "") ++ " remaining"

/-! ## The remote service and the effects of a handler -/

/-- The address every request goes to. -/
def baseUrl : String := "https://to-do-list-b-end-gf50.onrender.com"

/-- The arguments of one `fetch` call: the address, `method`, and the object
passed to `JSON.stringify` for `body` (absent for `DELETE`). -/
structure Request where
  method : String
  url : String
  body : Option Draft
  deriving DecidableEq, Repr

/-- What awaiting `fetch(...)` gives: the promise rejects (network error), or it
resolves to a response with its `ok` flag; `body` is what `response.json()`
resolves to, `none` when that promise rejects. -/
inductive FetchResult where
  | networkError
  | response (ok : Bool) (body : Option Task)
  deriving DecidableEq, Repr

/-- The observable effects of a handler besides its state updates. -/
inductive Effect where
  | alert (msg : String)
  | request (r : Request)
  | consoleError (msg : String)
  deriving DecidableEq, Repr

/-- Whether an effect is a request to the service. -/
def Effect.isRequest : Effect → Bool
  | .request _ => true
  | _ => false

/-! ## `handleAddTask` (lines 51-76) -/

/-- The `POST` request of `handleAddTask`. -/
def addRequest (s : State) : Request :=
  { method := "POST", url := baseUrl, body := some s.newTask }

/-- `handleAddTask()`.  `tasks` and `newTask` are the values of the render the
handler was created in; `setErrors(newErrors)` inside `validateForm` is applied
on every path. -/
def handleAddTask (fetch : Request → FetchResult) (s : State) : State × List Effect :=
  let (s1, valid) := validateForm s
  if !valid then
    (s1, [.alert "Please fill all fields before submitting the task."])
  else
    let req := addRequest s
    match fetch req with
    | .response true (some createdTask) =>
      ({ s1 with tasks := s.tasks ++ [createdTask], newTask := emptyDraft, errors := [] },
        [.request req])
    | _ => (s1, [.request req, .consoleError "Failed to add task:"])

/-- The `onChange` handler of the title input of the creation form:
`setNewTask({ ...newTask, title: e.target.value })`. -/
def changeNewTitle (value : String) (s : State) : State :=
  { s with newTask := { s.newTask with title := value } }

/-! ## `handleDeleteTask` (lines 78-85) -/

/-- The `DELETE` request of `handleDeleteTask(taskId)`. -/
def deleteRequest (taskId : String) : Request :=
  { method := "DELETE", url := baseUrl ++ "/" ++ taskId, body := none }

/-- `handleDeleteTask(taskId)`: the response is awaited and not inspected. -/
def handleDeleteTask (fetch : Request → FetchResult) (taskId : String) (s : State) :
    State × List Effect :=
  let req := deleteRequest taskId
  match fetch req with
  | .networkError => (s, [.request req, .consoleError "Error deleting task:"])
  | .response _ _ =>
    ({ s with tasks := s.tasks.filter (fun task => task._id != taskId) }, [.request req])

/-! ## The edit flow (lines 87-113 and the buttons of the modal) -/

/-- `handleEditTask(task)`. -/
def handleEditTask (task : Task) (s : State) : State :=
  { s with editingTaskId := some task._id, editedTask := task.toDraft }

/-- The `onChange` handler of the priority select of the modal:
`setEditedTask({ ...editedTask, priority: e.target.value })`. -/
def changeEditedPriority (value : String) (s : State) : State :=
  { s with editedTask := { s.editedTask with priority := value } }

/-- The `onChange` handler of the title input of the modal. -/
def changeEditedTitle (value : String) (s : State) : State :=
  { s with editedTask := { s.editedTask with title := value } }

/-- The `PUT` request of `saveEditedTask`; a `null` id is interpolated as
the text `null`. -/
def saveRequest (s : State) : Request :=
  { method := "PUT", url := baseUrl ++ "/" ++ s.editingTaskId.getD "null",
    body := some s.editedTask }

/-- `saveEditedTask()`. -/
def saveEditedTask (fetch : Request → FetchResult) (s : State) : State × List Effect :=
  let req := saveRequest s
  match fetch req with
  | .response true (some updatedTask) =>
    ({ s with
        tasks := s.tasks.map (fun task =>
          if some task._id = s.editingTaskId then updatedTask else task),
        editingTaskId := none,
        editedTask := emptyDraft },
      [.request req])
  | _ => (s, [.request req, .consoleError "Error editing task:"])

/-- The `onClick` handler of the cancel button: `setEditingTaskId(null)`. -/
def cancelBtnOnClick (s : State) : State :=
  { s with editingTaskId := none }

/-- The modal, and with it the save and cancel buttons, is rendered when
`editingTaskId` is truthy. -/
def inEditMode (s : State) : Bool :=
  match s.editingTaskId with
  | none => false
  | some id => truthy id

/-! ## Well-formed records and an echoing service -/

/-- A task with a non-blank title, a non-blank description and a due date. -/
def Task.wellFormed (t : Task) : Bool :=
  truthy (jsTrim t.title) && truthy (jsTrim t.description) && truthy t.dueDate

/-- Every task of the list is well formed. -/
def tasksWellFormed (ts : List Task) : Bool := ts.all Task.wellFormed

/-- A service whose successful answers carry the four fields of the record
that was sent. -/
def EchoService (fetch : Request → FetchResult) : Prop :=
  ∀ (req : Request) (d : Draft) (t : Task),
    req.body = some d → fetch req = .response true (some t) →
      t.title = d.title ∧ t.description = d.description ∧
      t.dueDate = d.dueDate ∧ t.priority = d.priority

/-- A concrete echoing service: it answers every request that has a body with
the record it was sent, keeping its `_id` or assigning `freshId`. -/
def echoService (freshId : String) (req : Request) : FetchResult :=
  match req.body with
  | some d =>
    .response true (some
      { _id := d._id.getD freshId, title := d.title, description := d.description,
        dueDate := d.dueDate, priority := d.priority })
  | none => .response true none

/-- A service that is unreachable. -/
def offlineService (_ : Request) : FetchResult := .networkError

/-- A service that answers every request with a non-success status. -/
def failingService (_ : Request) : FetchResult := .response false none

/-! ## Auxiliary facts -/

theorem truthy_eq_false_iff (s : String) : truthy s = false ↔ s = "" := by
  simp [truthy]

theorem truthy_eq_true_iff (s : String) : truthy s = true ↔ s ≠ "" := by
  simp [truthy]

/-- A string trims to the empty string exactly when it consists of white space. -/
theorem jsTrim_eq_empty_iff (s : String) :
    jsTrim s = "" ↔ ∀ c ∈ s.data, isJsWhiteSpace c = true := by
  have key : jsTrim s = "" ↔ s.data.dropWhile isJsWhiteSpace = [] := by
    unfold jsTrim
    constructor
    · intro h
      have h1 : ((s.data.dropWhile isJsWhiteSpace).reverse.dropWhile isJsWhiteSpace).reverse
          = [] := congrArg String.data h
      have h2 := List.reverse_eq_nil_iff.mp h1
      rw [List.dropWhile_eq_nil_iff] at h2
      by_contra hne
      obtain ⟨c, hc, hcw⟩ : ∃ c, c ∈ s.data.dropWhile isJsWhiteSpace ∧
          isJsWhiteSpace c = false := by
        cases hl : s.data.dropWhile isJsWhiteSpace with
        | nil => exact absurd hl hne
        | cons c l =>
          refine ⟨c, List.mem_cons_self _ _, ?_⟩
          have := List.head_dropWhile_not isJsWhiteSpace s.data (by rw [hl]; simp)
          simpa [hl] using this
      have := h2 c (List.mem_reverse.mpr hc)
      rw [hcw] at this
      exact Bool.noConfusion this
    · intro h
      rw [h]
      rfl
  rw [key, List.dropWhile_eq_nil_iff]

/-! ### Rounding to a double -/

theorem roundHalfEven_floor_le (x : ℚ) : Int.floor x ≤ roundHalfEven x := by
  unfold roundHalfEven
  simp only
  split_ifs <;> omega

theorem roundHalfEven_le_floor_succ (x : ℚ) : roundHalfEven x ≤ Int.floor x + 1 := by
  unfold roundHalfEven
  simp only
  split_ifs <;> omega

theorem roundHalfEven_intCast (z : Int) : roundHalfEven (z : ℚ) = z := by
  unfold roundHalfEven
  simp

theorem le_roundHalfEven (a : Int) (x : ℚ) (h : (a : ℚ) ≤ x) : a ≤ roundHalfEven x :=
  le_trans (Int.le_floor.mpr h) (roundHalfEven_floor_le x)

theorem roundHalfEven_le (b : Int) (x : ℚ) (h : x ≤ (b : ℚ)) : roundHalfEven x ≤ b := by
  rcases eq_or_lt_of_le h with h | h
  · rw [h, roundHalfEven_intCast]
  · have := Int.floor_lt.mpr h
    have := roundHalfEven_le_floor_succ x
    omega

theorem roundHalfEven_sub_abs (x : ℚ) : |(roundHalfEven x : ℚ) - x| ≤ 1 / 2 := by
  have h1 := Int.floor_le x
  have h2 := Int.lt_floor_add_one x
  unfold roundHalfEven
  simp only
  rw [abs_le]
  split_ifs with ha hb hc <;> push_cast <;> constructor <;> linarith

theorem ulp_pos (x : ℚ) : 0 < ulp x := by
  unfold ulp
  positivity

theorem toDouble_eq (x : ℚ) (hx : x ≠ 0) : toDouble x = roundHalfEven (x / ulp x) * ulp x := by
  simp [toDouble, hx]

theorem toDouble_sub_abs (x : ℚ) (hx : x ≠ 0) : |toDouble x - x| ≤ ulp x / 2 := by
  rw [toDouble_eq x hx]
  have hu := ulp_pos x
  have h := roundHalfEven_sub_abs (x / ulp x)
  have e : (roundHalfEven (x / ulp x) : ℚ) * ulp x - x
      = ((roundHalfEven (x / ulp x) : ℚ) - x / ulp x) * ulp x := by
    field_simp
  rw [e, abs_mul, abs_of_pos hu]
  calc |(roundHalfEven (x / ulp x) : ℚ) - x / ulp x| * ulp x ≤ 1 / 2 * ulp x :=
        mul_le_mul_of_nonneg_right h hu.le
    _ = ulp x / 2 := by ring

theorem toDouble_of_eq_mul (x : ℚ) (z : Int) (h : x = z * ulp x) : toDouble x = x := by
  by_cases hx : x = 0
  · simp [toDouble, hx]
  · rw [toDouble_eq x hx]
    have hu := ulp_pos x
    have : x / ulp x = (z : ℚ) := by
      rw [div_eq_iff hu.ne']
      exact h
    rw [this, roundHalfEven_intCast]
    exact h.symm

theorem toDouble_nonneg (x : ℚ) (h : 0 ≤ x) : 0 ≤ toDouble x := by
  by_cases hx : x = 0
  · simp [toDouble, hx]
  · rw [toDouble_eq x hx]
    have hu := ulp_pos x
    have : (0 : Int) ≤ roundHalfEven (x / ulp x) :=
      le_roundHalfEven 0 _ (by simpa using div_nonneg h hu.le)
    have : (0 : ℚ) ≤ (roundHalfEven (x / ulp x) : ℚ) := by exact_mod_cast this
    positivity

/-- Rounding never crosses a power of two: below `-2 ^ k` stays below. -/
theorem toDouble_le_neg_zpow (x : ℚ) (k : Int) (h : x ≤ -(2 : ℚ) ^ k) :
    toDouble x ≤ -(2 : ℚ) ^ k := by
  have hk : (0 : ℚ) < 2 ^ k := by positivity
  have hx : x ≠ 0 := by intro h0; rw [h0] at h; linarith
  have hneg : x < 0 := by linarith
  have habs : |x| = -x := abs_of_neg hneg
  have hpos : 0 < |x| := by rw [habs]; linarith
  have hke : k ≤ Int.log 2 |x| := by
    have := (Int.zpow_le_iff_le_log (R := ℚ) (b := 2) (by norm_num) hpos (x := k)).mp
      (by rw [habs]; push_cast; linarith)
    exact this
  have hlow : ((2 : ℕ) : ℚ) ^ Int.log 2 |x| ≤ |x| := Int.zpow_log_le_self (by norm_num) hpos
  push_cast at hlow
  rw [toDouble_eq x hx]
  have hu := ulp_pos x
  have hulp : ulp x * 2 ^ (52 : ℕ) = 2 ^ Int.log 2 |x| := by
    unfold ulp
    rw [← zpow_natCast, ← zpow_add₀ (by norm_num)]
    congr 1
    omega
  have hm : x / ulp x ≤ ((-(2 ^ 52 : ℕ) : Int) : ℚ) := by
    rw [div_le_iff₀ hu]
    have e : (((-(2 ^ 52 : ℕ) : Int) : ℚ)) * ulp x = -(2 ^ Int.log 2 |x|) := by
      rw [← hulp]; push_cast; ring
    rw [e]
    have hlow2 : (2 : ℚ) ^ Int.log 2 |x| ≤ -x := hlow.trans_eq habs
    linarith
  have hr := roundHalfEven_le _ _ hm
  have hr' : (roundHalfEven (x / ulp x) : ℚ) ≤ -(2 ^ (52 : ℕ) : ℚ) := by exact_mod_cast hr
  have hmono : (2 : ℚ) ^ k ≤ 2 ^ Int.log 2 |x| := zpow_le_zpow_right₀ (by norm_num) hke
  calc (roundHalfEven (x / ulp x) : ℚ) * ulp x ≤ -(2 ^ (52 : ℕ) : ℚ) * ulp x :=
        mul_le_mul_of_nonneg_right hr' hu.le
    _ = -(2 ^ Int.log 2 |x|) := by rw [← hulp]; ring
    _ ≤ -(2 : ℚ) ^ k := by linarith


theorem log_abs_bounds (x : ℚ) (hx : x ≠ 0) (lo hi : Int)
    (hlo : (2 : ℚ) ^ lo ≤ |x|) (hhi : |x| < (2 : ℚ) ^ hi) :
    lo ≤ Int.log 2 |x| ∧ Int.log 2 |x| < hi := by
  have hpos : 0 < |x| := abs_pos.mpr hx
  constructor
  · exact (Int.zpow_le_iff_le_log (R := ℚ) (b := 2) (by norm_num) hpos).mp
      (by push_cast; exact hlo)
  · exact (Int.lt_zpow_iff_log_lt (R := ℚ) (b := 2) (by norm_num) hpos).mp
      (by push_cast; exact hhi)

/-- Every integer of magnitude at most `2 ^ 53` is a double. -/
theorem toDouble_intCast (n : Int) (h : |n| ≤ 2 ^ 53) : toDouble (n : ℚ) = n := by
  by_cases hn : n = 0
  · simp [toDouble, hn]
  have hq : (n : ℚ) ≠ 0 := by exact_mod_cast hn
  have h1 : (1 : ℚ) ≤ |(n : ℚ)| := by
    have : (1 : Int) ≤ |n| := Int.one_le_abs hn
    exact_mod_cast this
  have h2 : |(n : ℚ)| ≤ 2 ^ 53 := by exact_mod_cast h
  obtain ⟨hlo, hhi⟩ := log_abs_bounds (n : ℚ) hq 0 54 (by simpa using h1)
    (by
      have : ((2 : ℚ) ^ (53 : ℕ)) < (2 : ℚ) ^ (54 : Int) := by norm_num
      exact lt_of_le_of_lt h2 this)
  by_cases he : Int.log 2 |(n : ℚ)| ≤ 52
  · apply toDouble_of_eq_mul (n : ℚ) (n * 2 ^ (52 - Int.log 2 |(n : ℚ)|).toNat)
    have hk : (((52 - Int.log 2 |(n : ℚ)|).toNat : ℕ) : Int) = 52 - Int.log 2 |(n : ℚ)| :=
      Int.toNat_of_nonneg (by omega)
    unfold ulp
    push_cast
    rw [mul_assoc, ← zpow_natCast, hk, ← zpow_add₀ (by norm_num)]
    simp
  · have he53 : Int.log 2 |(n : ℚ)| = 53 := by omega
    have hpos : 0 < |(n : ℚ)| := abs_pos.mpr hq
    have hge : ((2 : ℕ) : ℚ) ^ Int.log 2 |(n : ℚ)| ≤ |(n : ℚ)| :=
      Int.zpow_log_le_self (by norm_num) hpos
    rw [he53] at hge
    have habs : |n| = 2 ^ 53 := by
      apply le_antisymm h
      have : ((2 : ℚ) ^ (53 : ℕ)) ≤ |(n : ℚ)| := by
        have e : (((2 : ℕ) : ℚ) ^ (53 : Int)) = (2 : ℚ) ^ (53 : ℕ) := by norm_num
        rw [← e]; exact hge
      exact_mod_cast this
    apply toDouble_of_eq_mul (n : ℚ) (n / 2)
    unfold ulp
    rw [he53]
    have hdiv : 2 * (n / 2) = n := by
      have : |n| = 9007199254740992 := by rw [habs]; norm_num
      rcases abs_cases n with ⟨hh, _⟩ | ⟨hh, _⟩ <;> omega
    have : ((n / 2 : Int) : ℚ) * 2 = n := by
      have := congrArg (fun z : Int => (z : ℚ)) hdiv
      simp only at this
      push_cast at this
      linarith
    rw [← this]
    norm_num

/-- Rounding the quotient by the length of a day does not change its ceiling
as long as the dividend has magnitude at most `2 ^ 53`. -/
theorem ceil_toDouble_div (x : Int) (h : |x| ≤ 2 ^ 53) :
    Int.ceil (toDouble ((x : ℚ) / 86400000)) = Int.ceil ((x : ℚ) / 86400000) := by
  have hx2 : |(x : ℚ)| ≤ 2 ^ 53 := by exact_mod_cast h
  have hqabs : |(x : ℚ) / 86400000| ≤ |(x : ℚ)| := by
    rw [abs_div]
    apply div_le_self (abs_nonneg _)
    norm_num
  by_cases hq : (x : ℚ) / 86400000 = (Int.ceil ((x : ℚ) / 86400000) : ℚ)
  · have hn : |Int.ceil ((x : ℚ) / 86400000)| ≤ 2 ^ 53 := by
      have : |((Int.ceil ((x : ℚ) / 86400000) : Int) : ℚ)| ≤ 2 ^ 53 := by
        rw [← hq]; exact le_trans hqabs hx2
      exact_mod_cast this
    conv_lhs => rw [hq]
    rw [toDouble_intCast _ hn, Int.ceil_intCast]
  · have hle := Int.le_ceil ((x : ℚ) / 86400000)
    have hlt := Int.ceil_lt_add_one ((x : ℚ) / 86400000)
    have hlt2 : (x : ℚ) / 86400000 < Int.ceil ((x : ℚ) / 86400000) := lt_of_le_of_ne hle hq
    generalize Int.ceil ((x : ℚ) / 86400000) = n at hq hle hlt hlt2 ⊢
    have hne : (x : ℚ) / 86400000 ≠ 0 := by
      intro h0
      rw [h0] at hlt hlt2
      have h1 : (0 : Int) < n := by exact_mod_cast hlt2
      have h2 : n < 0 + 1 := by exact_mod_cast hlt
      omega
    -- integer form of the strict bounds
    have hi1 : x < n * 86400000 := by
      have : (x : ℚ) < n * 86400000 := by
        have := (div_lt_iff₀ (by norm_num : (0 : ℚ) < 86400000)).mp hlt2
        exact this
      exact_mod_cast this
    have hi2 : (n - 1) * 86400000 < x := by
      have : ((n : ℚ) - 1) * 86400000 < x := by
        have := (lt_div_iff₀ (by norm_num : (0 : ℚ) < 86400000)).mp (by linarith : (n : ℚ) - 1 < (x : ℚ) / 86400000)
        exact this
      exact_mod_cast this
    have hq1 : (x : ℚ) / 86400000 ≤ n - 1 / 86400000 := by
      rw [div_le_iff₀ (by norm_num)]
      have : (x : ℚ) ≤ n * 86400000 - 1 := by
        have : x ≤ n * 86400000 - 1 := by omega
        exact_mod_cast this
      linarith
    have hq2 : (n : ℚ) - 1 + 1 / 86400000 ≤ (x : ℚ) / 86400000 := by
      rw [le_div_iff₀ (by norm_num)]
      have : ((n : ℚ) - 1) * 86400000 + 1 ≤ x := by
        have : (n - 1) * 86400000 + 1 ≤ x := by omega
        exact_mod_cast this
      linarith
    have hsmall : |(x : ℚ) / 86400000| < (2 : ℚ) ^ (27 : Int) := by
      rw [abs_div]
      rw [div_lt_iff₀ (by norm_num)]
      have : (2 : ℚ) ^ (53 : ℕ) < 2 ^ (27 : Int) * |(86400000 : ℚ)| := by norm_num
      linarith
    have hlog : Int.log 2 |(x : ℚ) / 86400000| < 27 := by
      have hpos : 0 < |(x : ℚ) / 86400000| := abs_pos.mpr hne
      exact (Int.lt_zpow_iff_log_lt (R := ℚ) (b := 2) (by norm_num) hpos).mp
        (by push_cast; exact hsmall)
    have hulp : ulp ((x : ℚ) / 86400000) ≤ (2 : ℚ) ^ (-26 : Int) := by
      unfold ulp
      exact zpow_le_zpow_right₀ (by norm_num) (by omega)
    have herr := toDouble_sub_abs _ hne
    rw [abs_le] at herr
    have hval : (2 : ℚ) ^ (-26 : Int) = 1 / 67108864 := by norm_num
    rw [hval] at hulp
    rw [Int.ceil_eq_iff]
    constructor <;> linarith [herr.1, herr.2]


theorem close_of_bounds (x : Int) (h1 : -9007199254740992 ≤ x) (h2 : x ≤ 9007199254740992) :
    |x| ≤ 2 ^ 53 := by
  rw [abs_le]
  constructor <;> norm_num <;> omega

/-- For instants at most `2 ^ 53` ms apart the day count is the exact ceiling. -/
theorem daysRemaining_eq_ceil (now due : Int) (h : |due - now| ≤ 2 ^ 53) :
    daysRemaining now due = Int.ceil (((due - now : Int) : ℚ) / 86400000) := by
  unfold daysRemaining
  rw [toDouble_intCast _ h]
  have : (1000 * 60 * 60 * 24 : ℚ) = 86400000 := by norm_num
  rw [this]
  exact ceil_toDouble_div _ h

theorem ceil_div_le_iff (x k : Int) :
    Int.ceil ((x : ℚ) / 86400000) ≤ k ↔ x ≤ k * 86400000 := by
  rw [Int.ceil_le, div_le_iff₀ (by norm_num)]
  norm_cast

theorem ceil_div_eq_iff (x k : Int) :
    Int.ceil ((x : ℚ) / 86400000) = k ↔ (k - 1) * 86400000 < x ∧ x ≤ k * 86400000 := by
  have h1 := ceil_div_le_iff x k
  have h2 := ceil_div_le_iff x (k - 1)
  constructor
  · intro hd
    refine ⟨?_, h1.mp (by omega)⟩
    by_contra hc
    have := h2.mpr (by omega)
    omega
  · rintro ⟨ha, hb⟩
    have := h1.mpr hb
    by_contra hc
    have : Int.ceil ((x : ℚ) / 86400000) ≤ k - 1 := by omega
    have := h2.mp this
    omega

theorem daysRemaining_eq_iff (now due k : Int) (h : |due - now| ≤ 2 ^ 53) :
    daysRemaining now due = k ↔
      (k - 1) * 86400000 < due - now ∧ due - now ≤ k * 86400000 := by
  rw [daysRemaining_eq_ceil now due h, ceil_div_eq_iff]

/-- A task at least one day late has a negative day count, at any distance. -/
theorem daysRemaining_neg_of_late (now due : Int) (h : due + 86400000 ≤ now) :
    daysRemaining now due < 0 := by
  have hx : ((due - now : Int) : ℚ) ≤ -86400000 := by
    have : due - now ≤ -86400000 := by omega
    exact_mod_cast this
  have hd : toDouble ((due - now : Int) : ℚ) ≤ -86400000 := by
    by_cases hc : |due - now| ≤ 2 ^ 53
    · rw [toDouble_intCast _ hc]; exact hx
    · have hlt : due - now < -9007199254740992 := by
        by_contra hn
        exact hc (close_of_bounds _ (by omega) (by omega))
      have hq : ((due - now : Int) : ℚ) ≤ -(2 : ℚ) ^ (53 : Int) := by
        have : ((due - now : Int) : ℚ) ≤ -9007199254740992 := by
          have : due - now ≤ -9007199254740992 := by omega
          exact_mod_cast this
        have e : (2 : ℚ) ^ (53 : Int) = 9007199254740992 := by norm_num
        rw [e]; exact this
      have := toDouble_le_neg_zpow _ 53 hq
      have e : (2 : ℚ) ^ (53 : Int) = 9007199254740992 := by norm_num
      rw [e] at this
      linarith
  have hq : toDouble ((due - now : Int) : ℚ) / (1000 * 60 * 60 * 24) ≤ -(2 : ℚ) ^ (0 : Int) := by
    rw [div_le_iff₀ (by norm_num)]
    have e : -(2 : ℚ) ^ (0 : Int) * (1000 * 60 * 60 * 24) = -86400000 := by norm_num
    rw [e]
    exact hd
  have h1 := toDouble_le_neg_zpow _ 0 hq
  unfold daysRemaining
  have : Int.ceil (toDouble (toDouble ((due - now : Int) : ℚ) / (1000 * 60 * 60 * 24))) ≤ -1 := by
    rw [Int.ceil_le]
    simpa using h1
  omega

theorem daysRemaining_nonneg_of_not_late (now due : Int) (h : now < due + 86400000) :
    0 ≤ daysRemaining now due := by
  by_cases hx : due - now < 0
  · have hc : |due - now| ≤ 2 ^ 53 := close_of_bounds _ (by omega) (by omega)
    have := (daysRemaining_eq_iff now due 0 hc).mpr ⟨by omega, by omega⟩
    omega
  · have h0 : (0 : ℚ) ≤ ((due - now : Int) : ℚ) := by
      have : 0 ≤ due - now := by omega
      exact_mod_cast this
    unfold daysRemaining
    apply Int.ceil_nonneg
    apply toDouble_nonneg
    apply div_nonneg (toDouble_nonneg _ h0)
    norm_num

theorem daysRemaining_neg_iff (now due : Int) :
    daysRemaining now due < 0 ↔ due + 86400000 ≤ now := by
  constructor
  · intro h
    by_contra hn
    have := daysRemaining_nonneg_of_not_late now due (by omega)
    omega
  · exact daysRemaining_neg_of_late now due

theorem toDouble_far_instants : toDouble 12960000000000001 = 12960000000000000 := by
  have hx : (12960000000000001 : ℚ) ≠ 0 := by norm_num
  have habs : |(12960000000000001 : ℚ)| = 12960000000000001 := abs_of_pos (by norm_num)
  obtain ⟨h1, h2⟩ := log_abs_bounds (12960000000000001 : ℚ) hx 53 54
    (by rw [habs]; norm_num) (by rw [habs]; norm_num)
  have hlog : Int.log 2 |(12960000000000001 : ℚ)| = 53 := by omega
  have hulp : ulp (12960000000000001 : ℚ) = 2 := by
    unfold ulp
    rw [hlog]
    norm_num
  rw [toDouble_eq _ hx, hulp]
  have hf : Int.floor ((12960000000000001 : ℚ) / 2) = 6480000000000000 := by
    rw [Int.floor_eq_iff]
    constructor <;> norm_num
  have hr : roundHalfEven ((12960000000000001 : ℚ) / 2) = 6480000000000000 := by
    unfold roundHalfEven
    simp only [hf]
    norm_num
  rw [hr]
  norm_num

theorem daysRemaining_far_instants :
    daysRemaining (-8640000000000000) 4320000000000001 = 150000000 := by
  unfold daysRemaining
  have e1 : (((4320000000000001 - (-8640000000000000) : Int)) : ℚ) = 12960000000000001 := by
    norm_num
  rw [e1, toDouble_far_instants]
  have e2 : (12960000000000000 : ℚ) / (1000 * 60 * 60 * 24) = ((150000000 : Int) : ℚ) := by
    norm_num
  rw [e2, toDouble_intCast _ (by norm_num), Int.ceil_intCast]

/-! ## Validation -/

/-- C1: the error mapping stored by `validateForm` has the key `title` exactly
when the trimmed title is empty, the key `description` exactly when the
trimmed description is empty, the key `dueDate` exactly when the due date is
empty, and no other key; `validateForm` returns true exactly when that mapping
is empty. -/
theorem validateForm_keys (s : State) :
    ("title" ∈ (validateForm s).1.errors.keys ↔ jsTrim s.newTask.title = "") ∧
    ("description" ∈ (validateForm s).1.errors.keys ↔ jsTrim s.newTask.description = "") ∧
    ("dueDate" ∈ (validateForm s).1.errors.keys ↔ s.newTask.dueDate = "") ∧
    (∀ k ∈ (validateForm s).1.errors.keys,
      k = "title" ∨ k = "description" ∨ k = "dueDate") ∧
    ((validateForm s).2 = true ↔ (validateForm s).1.errors = []) := by
  have e1 : ("title" : String) ≠ "description" := by decide
  have e2 : ("title" : String) ≠ "dueDate" := by decide
  have e3 : ("description" : String) ≠ "dueDate" := by decide
  simp only [validateForm, newErrors, Errors.keys]
  by_cases h1 : jsTrim s.newTask.title = "" <;>
  by_cases h2 : jsTrim s.newTask.description = "" <;>
  by_cases h3 : s.newTask.dueDate = "" <;>
  simp [truthy, h1, h2, h3, e1, e2, e3, e1.symm, e2.symm, e3.symm]

/-! ## The time-remaining label -/

theorem daysRemaining_self (now : Int) : daysRemaining now now = 0 := by
  rw [daysRemaining_eq_iff now now 0 (close_of_bounds _ (by omega) (by omega))]
  omega

theorem daysRemaining_add_day (now : Int) : daysRemaining now (now + 86400000) = 1 := by
  rw [daysRemaining_eq_iff now _ 1 (close_of_bounds _ (by omega) (by omega))]
  omega

theorem daysRemaining_add_three_days (now : Int) :
    daysRemaining now (now + 3 * 86400000) = 3 := by
  rw [daysRemaining_eq_iff now _ 3 (close_of_bounds _ (by omega) (by omega))]
  omega

/-- The label in the last branch is never the text `Overdue` or `Due today`:
it is longer than both. -/
theorem remaining_label_length (d : Int) (plural : String) :
    14 ≤ (toString d ++ " day" ++ plural ++ " remaining").length := by
  simp only [String.length_append]
  have : (" day" : String).length = 4 := by decide
  have : (" remaining" : String).length = 10 := by decide
  omega

/-- C2, as stated, fails: between the two valid time values below the exact
day count is 150000001, and the label counts 150000000 days, because the
difference of the instants exceeds `2 ^ 53` and is rounded to a double before
it is divided. -/
theorem calculateTimeRemaining_policy_counterexample :
    isTimeValue (-8640000000000000) = true ∧
    isTimeValue 4320000000000001 = true ∧
    Int.ceil (((4320000000000001 - (-8640000000000000) : Int) : ℚ) / 86400000) = 150000001 ∧
    calculateTimeRemaining (-8640000000000000) (some 4320000000000001) =
      "150000000 days remaining" ∧
    calculateTimeRemaining (-8640000000000000) (some 4320000000000001) ≠
      toString (Int.ceil (((4320000000000001 - (-8640000000000000) : Int) : ℚ) / 86400000))
        ++ " days remaining" := by
  have hc : Int.ceil (((4320000000000001 - (-8640000000000000) : Int) : ℚ) / 86400000)
      = 150000001 := by
    rw [Int.ceil_eq_iff]
    norm_num
  have hl : calculateTimeRemaining (-8640000000000000) (some 4320000000000001) =
      "150000000 days remaining" := by
    simp only [calculateTimeRemaining, daysRemaining_far_instants]
    decide
  refine ⟨by decide, by decide, hc, hl, ?_⟩
  rw [hl, hc]
  decide

/-- C2, amended: for instants at most `2 ^ 53` ms apart, with
`d = ceil((due - now) / 86400000)`, the label is `Overdue` when `d < 0`,
`Due today` when `d = 0`, `1 day remaining` when `d = 1` and
`<d> days remaining` when `d > 1`; a task due now is `Due today`, one due in
exactly one day has `1 day remaining`, one due in exactly three days has
`3 days remaining`. -/
theorem calculateTimeRemaining_policy (now due : Int) (hclose : |due - now| ≤ 2 ^ 53) :
    (Int.ceil (((due - now : Int) : ℚ) / 86400000) < 0 →
      calculateTimeRemaining now (some due) = "Overdue") ∧
    (Int.ceil (((due - now : Int) : ℚ) / 86400000) = 0 →
      calculateTimeRemaining now (some due) = "Due today") ∧
    (Int.ceil (((due - now : Int) : ℚ) / 86400000) = 1 →
      calculateTimeRemaining now (some due) = "1 day remaining") ∧
    (1 < Int.ceil (((due - now : Int) : ℚ) / 86400000) →
      calculateTimeRemaining now (some due) =
        toString (Int.ceil (((due - now : Int) : ℚ) / 86400000)) ++ " days remaining") ∧
    calculateTimeRemaining now (some now) = "Due today" ∧
    calculateTimeRemaining now (some (now + 86400000)) = "1 day remaining" ∧
    calculateTimeRemaining now (some (now + 3 * 86400000)) = "3 days remaining" := by
  have h1 := daysRemaining_add_day now
  have h3 := daysRemaining_add_three_days now
  rw [← daysRemaining_eq_ceil now due hclose]
  refine ⟨?_, ?_, ?_, ?_, ?_, ?_, ?_⟩
  · intro h
    simp [calculateTimeRemaining, h]
  · intro h
    simp [calculateTimeRemaining, h]
  · intro h
    simp only [calculateTimeRemaining, h]
    decide
  · intro h
    have h0 : ¬ daysRemaining now due < 0 := by omega
    have h0' : ¬ daysRemaining now due = 0 := by omega
    simp only [calculateTimeRemaining, h0, h0', if_false, gt_iff_lt, h, if_true]
    rw [String.append_assoc, String.append_assoc]
    rfl
  · simp [calculateTimeRemaining, daysRemaining_self]
  · simp only [calculateTimeRemaining, h1]
    decide
  · simp only [calculateTimeRemaining, h3]
    decide

/-- C2, amended, at concrete instants: 259200000 ms ahead is three days, one
more millisecond makes it four. -/
theorem calculateTimeRemaining_policy_witness :
    |(1700259200001 - 1700000000000 : Int)| ≤ 2 ^ 53 ∧
    calculateTimeRemaining 1700000000000 (some 1700259200001) = "4 days remaining" := by
  have hb : |(1700259200001 - 1700000000000 : Int)| ≤ 2 ^ 53 := by decide
  have hc : Int.ceil (((1700259200001 - 1700000000000 : Int) : ℚ) / 86400000) = 4 := by
    rw [Int.ceil_eq_iff]
    norm_num
  have h := (calculateTimeRemaining_policy 1700000000000 1700259200001 hb).2.2.2.1
    (by rw [hc]; decide)
  rw [hc] at h
  exact ⟨hb, h⟩

/-- C3, as stated, fails: a task due one millisecond ago is labelled
`Due today`, not `Overdue`. -/
theorem calculateTimeRemaining_past_counterexample :
    (1699999999999 : Int) < 1700000000000 ∧
    calculateTimeRemaining 1700000000000 (some 1699999999999) = "Due today" ∧
    calculateTimeRemaining 1700000000000 (some 1699999999999) ≠ "Overdue" := by
  have h : daysRemaining 1700000000000 1699999999999 = 0 := by
    rw [daysRemaining_eq_iff _ _ 0 (close_of_bounds _ (by omega) (by omega))]
    omega
  refine ⟨by decide, ?_, ?_⟩ <;> simp only [calculateTimeRemaining, h] <;> decide

/-- C3, amended: a task due at least one full day (86400000 ms) before the
current instant is labelled `Overdue`; one due earlier than now by less than
a day is labelled `Due today`. -/
theorem calculateTimeRemaining_past (now due : Int) (h : due < now) :
    (due + 86400000 ≤ now → calculateTimeRemaining now (some due) = "Overdue") ∧
    (now < due + 86400000 → calculateTimeRemaining now (some due) = "Due today") := by
  constructor
  · intro hd
    have := (daysRemaining_neg_iff now due).mpr hd
    simp [calculateTimeRemaining, this]
  · intro hd
    have h0 : daysRemaining now due = 0 := by
      rw [daysRemaining_eq_iff now due 0 (close_of_bounds _ (by omega) (by omega))]
      omega
    simp [calculateTimeRemaining, h0]

/-- C3, amended, at concrete instants: exactly one day late is `Overdue`. -/
theorem calculateTimeRemaining_past_witness :
    (1699913600000 : Int) < 1700000000000 ∧
    calculateTimeRemaining 1700000000000 (some 1699913600000) = "Overdue" :=
  ⟨by decide,
    (calculateTimeRemaining_past 1700000000000 1699913600000 (by decide)).1 (by decide)⟩

/-- The label is `Overdue` exactly when the task is at least one day late. -/
theorem calculateTimeRemaining_overdue_iff (now due : Int) :
    calculateTimeRemaining now (some due) = "Overdue" ↔ due + 86400000 ≤ now := by
  rw [← daysRemaining_neg_iff]
  constructor
  · intro h
    by_contra hn
    simp only [calculateTimeRemaining, hn, if_false] at h
    split_ifs at h with h0 h1
    · exact absurd h (by decide)
    · have := remaining_label_length (daysRemaining now due) "s"
      rw [h] at this
      exact absurd this (by decide)
    · have := remaining_label_length (daysRemaining now due) ""
      rw [h] at this
      exact absurd this (by decide)
  · intro h
    simp [calculateTimeRemaining, h]

/-! ## Creating a task -/

theorem validateForm_true_iff (s : State) :
    (validateForm s).2 = true ↔
      jsTrim s.newTask.title ≠ "" ∧ jsTrim s.newTask.description ≠ "" ∧
      s.newTask.dueDate ≠ "" := by
  simp only [validateForm, newErrors, Errors.keys]
  by_cases h1 : jsTrim s.newTask.title = "" <;>
  by_cases h2 : jsTrim s.newTask.description = "" <;>
  by_cases h3 : s.newTask.dueDate = "" <;>
  simp [truthy, h1, h2, h3]

theorem validateForm_errors_of_true (s : State) (h : (validateForm s).2 = true) :
    (validateForm s).1.errors = [] := by
  have hn : (newErrors s.newTask).keys.length = 0 := by
    simpa [validateForm] using h
  have hl : (newErrors s.newTask).length = 0 := by
    simpa [Errors.keys] using hn
  exact List.length_eq_zero.mp hl

theorem handleAddTask_of_success (fetch : Request → FetchResult) (s : State)
    (created : Task) (hvalid : (validateForm s).2 = true)
    (hresp : fetch (addRequest s) = .response true (some created)) :
    (handleAddTask fetch s).1 =
      { (validateForm s).1 with
        tasks := s.tasks ++ [created], newTask := emptyDraft, errors := [] } := by
  simp [handleAddTask, hvalid, hresp]

/-- A draft that passes validation in the scenario of the specification. -/
def buyMilk : Draft :=
  { _id := none, title := "Buy milk", description := "2%", dueDate := "2099-01-01",
    priority := "low" }

/-- C4: when the draft passes validation and the service answers the create
request with success and a created task, the new task list is the old one with
that task appended as last element, the draft is the empty draft and the error
mapping is empty; from an empty list the result is the one-element list of the
returned task. -/
theorem handleAddTask_success (fetch : Request → FetchResult) (s : State) (created : Task)
    (hvalid : (validateForm s).2 = true)
    (hresp : fetch (addRequest s) = .response true (some created)) :
    (handleAddTask fetch s).1.tasks = s.tasks ++ [created] ∧
    (handleAddTask fetch s).1.tasks.length = s.tasks.length + 1 ∧
    (handleAddTask fetch s).1.tasks.take s.tasks.length = s.tasks ∧
    (handleAddTask fetch s).1.tasks.getLast? = some created ∧
    (handleAddTask fetch s).1.newTask = emptyDraft ∧
    (handleAddTask fetch s).1.newTask =
      { _id := none, title := "", description := "", dueDate := "", priority := "medium" } ∧
    (handleAddTask fetch s).1.errors = [] ∧
    (s.tasks = [] → (handleAddTask fetch s).1.tasks = [created]) := by
  rw [handleAddTask_of_success fetch s created hvalid hresp]
  refine ⟨rfl, by simp, by simp, by simp, rfl, rfl, rfl, ?_⟩
  intro h
  simp [h]

/-- C4, on the scenario of the specification: from the initial state with the
draft `Buy milk`, an echoing service that assigns the id `id1` leaves exactly
one task with those fields, and an empty form. -/
theorem handleAddTask_success_witness :
    (handleAddTask (echoService "id1") { State.initial with newTask := buyMilk }).1.tasks =
      [{ _id := "id1", title := "Buy milk", description := "2%", dueDate := "2099-01-01",
         priority := "low" }] ∧
    (handleAddTask (echoService "id1") { State.initial with newTask := buyMilk }).1.newTask =
      emptyDraft :=
  have h := handleAddTask_success (echoService "id1")
    { State.initial with newTask := buyMilk }
    { _id := "id1", title := "Buy milk", description := "2%", dueDate := "2099-01-01",
      priority := "low" }
    (by decide) (by decide)
  ⟨h.2.2.2.2.2.2.2 rfl, h.2.2.2.2.1⟩

/-- C5: when the draft has a blank title, a blank description or an empty due
date, `handleAddTask` raises the alert and does nothing else: no request is
issued, and the task list and the draft are what they were. -/
theorem handleAddTask_invalid (fetch : Request → FetchResult) (s : State)
    (h : jsTrim s.newTask.title = "" ∨ jsTrim s.newTask.description = "" ∨
      s.newTask.dueDate = "") :
    (handleAddTask fetch s).2 =
      [Effect.alert "Please fill all fields before submitting the task."] ∧
    (∀ e ∈ (handleAddTask fetch s).2, e.isRequest = false) ∧
    (handleAddTask fetch s).1.tasks = s.tasks ∧
    (handleAddTask fetch s).1.newTask = s.newTask := by
  have hv : (validateForm s).2 = false := by
    cases hb : (validateForm s).2 with
    | false => rfl
    | true =>
      have := (validateForm_true_iff s).mp hb
      tauto
  have hr : handleAddTask fetch s =
      ((validateForm s).1, [Effect.alert "Please fill all fields before submitting the task."]) := by
    simp [handleAddTask, hv]
  rw [hr]
  refine ⟨rfl, ?_, rfl, rfl⟩
  intro e he
  simp only [List.mem_singleton] at he
  rw [he]
  rfl

/-- C5, on the scenario of the specification: an empty title, with a service
that would accept the task. -/
theorem handleAddTask_invalid_witness :
    (handleAddTask (echoService "id1")
      { State.initial with newTask := { buyMilk with title := "" } }).2 =
      [Effect.alert "Please fill all fields before submitting the task."] ∧
    (handleAddTask (echoService "id1")
      { State.initial with newTask := { buyMilk with title := "" } }).1.tasks = [] :=
  have h := handleAddTask_invalid (echoService "id1")
    { State.initial with newTask := { buyMilk with title := "" } } (Or.inl (by decide))
  ⟨h.1, h.2.2.1⟩

/-- The state reached from the initial one by typing a description and a due
date, pressing the add button with the title still empty, and then typing the
title: the draft is complete and `errors` still holds the entry for the title. -/
def staleErrorsState : State :=
  changeNewTitle "Buy milk"
    (handleAddTask offlineService
      { State.initial with newTask := { buyMilk with title := "" } }).1

/-- C6, as stated, fails: in `staleErrorsState` the draft passes validation,
the create request fails, and the error mapping after the call is empty while
it had the entry for the title before. -/
theorem handleAddTask_failure_counterexample :
    (validateForm staleErrorsState).2 = true ∧
    offlineService (addRequest staleErrorsState) = FetchResult.networkError ∧
    staleErrorsState.errors = [("title", "Title is required")] ∧
    (handleAddTask offlineService staleErrorsState).1.errors = [] ∧
    (handleAddTask offlineService staleErrorsState).1.errors ≠ staleErrorsState.errors := by
  decide

/-- C6, amended: when the draft passes validation and the create request fails
(network error or non-success status), the task list, the draft,
`editingTaskId` and the edit draft are what they were, and the error mapping is
the empty mapping computed by the validation. -/
theorem handleAddTask_failure (fetch : Request → FetchResult) (s : State)
    (hvalid : (validateForm s).2 = true)
    (hresp : fetch (addRequest s) = .networkError ∨
      ∃ body, fetch (addRequest s) = .response false body) :
    (handleAddTask fetch s).1.tasks = s.tasks ∧
    (handleAddTask fetch s).1.newTask = s.newTask ∧
    (handleAddTask fetch s).1.editingTaskId = s.editingTaskId ∧
    (handleAddTask fetch s).1.editedTask = s.editedTask ∧
    (handleAddTask fetch s).1.errors = [] ∧
    (s.errors = [] → (handleAddTask fetch s).1 = s) := by
  have hr : (handleAddTask fetch s).1 = (validateForm s).1 := by
    rcases hresp with h | ⟨body, h⟩ <;> simp [handleAddTask, hvalid, h]
  have he := validateForm_errors_of_true s hvalid
  rw [hr]
  refine ⟨rfl, rfl, rfl, rfl, he, ?_⟩
  intro h0
  have : (validateForm s).1 = { s with errors := (validateForm s).1.errors } := rfl
  rw [this, he, ← h0]

/-- C6, amended, at a concrete state: the complete draft `Buy milk` and an
unreachable service. -/
theorem handleAddTask_failure_witness :
    (handleAddTask offlineService { State.initial with newTask := buyMilk }).1 =
      { State.initial with newTask := buyMilk } :=
  (handleAddTask_failure offlineService { State.initial with newTask := buyMilk }
    (by decide) (Or.inl rfl)).2.2.2.2.2 rfl

/-! ## Deleting a task -/

/-- C7: whatever the status of the response to the delete request, the new
task list has no task with the deleted id and is otherwise the old list: it is
a sublist of it (same relative order) in which every task with another id
occurs as often as before. -/
theorem handleDeleteTask_removes (fetch : Request → FetchResult) (taskId : String)
    (s : State) (ok : Bool) (body : Option Task)
    (hresp : fetch (deleteRequest taskId) = .response ok body) :
    (∀ t ∈ (handleDeleteTask fetch taskId s).1.tasks, t._id ≠ taskId) ∧
    (handleDeleteTask fetch taskId s).1.tasks.Sublist s.tasks ∧
    (∀ t : Task, t._id ≠ taskId →
      (handleDeleteTask fetch taskId s).1.tasks.count t = s.tasks.count t) ∧
    (∀ t ∈ s.tasks, t._id ≠ taskId → t ∈ (handleDeleteTask fetch taskId s).1.tasks) := by
  have hr : (handleDeleteTask fetch taskId s).1.tasks =
      s.tasks.filter (fun task => task._id != taskId) := by
    simp [handleDeleteTask, hresp]
  rw [hr]
  refine ⟨?_, List.filter_sublist _, ?_, ?_⟩
  · intro t ht
    simpa using (List.mem_filter.mp ht).2
  · intro t ht
    rw [List.count_filter]
    simpa using ht
  · intro t ht hne
    exact List.mem_filter.mpr ⟨ht, by simpa using hne⟩

/-- Two tasks used in the examples. -/
def taskA : Task :=
  { _id := "a1", title := "Buy milk", description := "2%", dueDate := "2099-01-01",
    priority := "low" }

def taskB : Task :=
  { _id := "b2", title := "Pay rent", description := "May", dueDate := "2099-02-01",
    priority := "medium" }

/-- C7, at a concrete list: deleting `a1` from the list of `taskA`, `taskB`
with a service that answers with a non-success status keeps `taskB` and leaves
no copy of `taskA`. -/
theorem handleDeleteTask_removes_witness :
    failingService (deleteRequest "a1") = FetchResult.response false none ∧
    taskB ∈ (handleDeleteTask failingService "a1"
      { State.initial with tasks := [taskA, taskB] }).1.tasks ∧
    (handleDeleteTask failingService "a1"
      { State.initial with tasks := [taskA, taskB] }).1.tasks.count taskA = 0 :=
  have h := handleDeleteTask_removes failingService "a1"
    { State.initial with tasks := [taskA, taskB] } false none rfl
  ⟨rfl, h.2.2.2 taskB (by decide) (by decide),
    List.count_eq_zero.mpr (fun hm => h.1 taskA hm rfl)⟩

/-! ## Editing a task -/

theorem saveEditedTask_of_success (fetch : Request → FetchResult) (s : State)
    (updated : Task) (hresp : fetch (saveRequest s) = .response true (some updated)) :
    (saveEditedTask fetch s).1 =
      { s with
        tasks := s.tasks.map (fun task =>
          if some task._id = s.editingTaskId then updated else task),
        editingTaskId := none,
        editedTask := emptyDraft } := by
  simp [saveEditedTask, hresp]

/-- In a list without repeated ids, two positions holding the same id are the
same position. -/
theorem index_unique_of_nodup (ts : List Task) (hnd : (ts.map (fun t => t._id)).Nodup)
    (i j : Nat) (a b : Task) (ha : ts[i]? = some a) (hb : ts[j]? = some b)
    (hid : a._id = b._id) : i = j := by
  have hi : i < ts.length := (List.getElem?_eq_some_iff.mp ha).1
  have hj : j < ts.length := (List.getElem?_eq_some_iff.mp hb).1
  have hmi : (ts.map (fun t => t._id))[i]? = some a._id := by
    rw [List.getElem?_map, ha]; rfl
  have hmj : (ts.map (fun t => t._id))[j]? = some a._id := by
    rw [List.getElem?_map, hb, hid]; rfl
  have hne := List.nodup_iff_getElem?_ne_getElem?.mp hnd
  rcases Nat.lt_trichotomy i j with h | h | h
  · exact absurd (hmi.trans hmj.symm) (hne i j h (by simpa using hj))
  · exact h
  · exact absurd (hmj.trans hmi.symm) (hne j i h (by simpa using hi))

/-- The state of the scenario: the list `taskA`, `taskB`, edit begun on `taskA`
and its priority set to `high` in the modal. -/
def editingState : State :=
  changeEditedPriority "high"
    (handleEditTask taskA { State.initial with tasks := [taskA, taskB] })

/-- A third record, carrying the id of `taskA`. -/
def taskA2 : Task :=
  { _id := "a1", title := "Call mum", description := "Sunday", dueDate := "2099-03-01",
    priority := "medium" }

/-- The edit scenario on a list in which the id of `taskA` occurs twice. -/
def repeatedIdState : State :=
  changeEditedPriority "high"
    (handleEditTask taskA { State.initial with tasks := [taskA, taskB, taskA2] })

/-- C8, as stated, fails: in `repeatedIdState`, in edit mode on `taskA` at
position 0, a successful save also replaces the entry at position 2, which
carries the same id, so an entry other than the one at the position of
`taskA` has changed. -/
theorem saveEditedTask_counterexample :
    inEditMode repeatedIdState = true ∧
    repeatedIdState.tasks[0]? = some taskA ∧
    repeatedIdState.editingTaskId = some taskA._id ∧
    echoService "x" (saveRequest repeatedIdState) =
      FetchResult.response true (some { taskA with priority := "high" }) ∧
    repeatedIdState.tasks[2]? = some taskA2 ∧
    (saveEditedTask (echoService "x") repeatedIdState).1.tasks[2]? =
      some { taskA with priority := "high" } ∧
    (saveEditedTask (echoService "x") repeatedIdState).1.tasks[2]? ≠
      repeatedIdState.tasks[2]? := by
  decide

/-- C8, amended: in edit mode on the task `T` at position `i`, when the service
answers the update request with success and a record `updated`, the new list
has the length of the old one, holds `updated` at position `i` and at every
position whose task carries the id of `T`, and keeps every task with another
id at its position; with ids that are unique in the list these are all
positions other than `i`.  `editingTaskId` is cleared and the edit draft is
the empty draft.  When the draft had priority `high` and the service echoes
the draft, the entry at position `i` has priority `high`. -/
theorem saveEditedTask_success (fetch : Request → FetchResult) (s : State) (i : Nat)
    (T updated : Task)
    (hT : s.tasks[i]? = some T)
    (hedit : s.editingTaskId = some T._id)
    (hresp : fetch (saveRequest s) = .response true (some updated)) :
    (saveEditedTask fetch s).1.tasks.length = s.tasks.length ∧
    (saveEditedTask fetch s).1.tasks[i]? = some updated ∧
    (∀ (j : Nat) (t : Task), s.tasks[j]? = some t → t._id = T._id →
      (saveEditedTask fetch s).1.tasks[j]? = some updated) ∧
    (∀ (j : Nat) (t : Task), s.tasks[j]? = some t → t._id ≠ T._id →
      (saveEditedTask fetch s).1.tasks[j]? = some t) ∧
    ((s.tasks.map (fun t => t._id)).Nodup →
      ∀ j : Nat, j ≠ i → (saveEditedTask fetch s).1.tasks[j]? = s.tasks[j]?) ∧
    (saveEditedTask fetch s).1.editingTaskId = none ∧
    (saveEditedTask fetch s).1.editedTask =
      { _id := none, title := "", description := "", dueDate := "", priority := "medium" } ∧
    (s.editedTask.priority = "high" → updated.priority = s.editedTask.priority →
      ((saveEditedTask fetch s).1.tasks[i]?).map Task.priority = some "high") := by
  rw [saveEditedTask_of_success fetch s updated hresp]
  have hkeep : ∀ (j : Nat) (t : Task), s.tasks[j]? = some t → t._id ≠ T._id →
      (s.tasks.map (fun task =>
        if some task._id = s.editingTaskId then updated else task))[j]? = some t := by
    intro j t hj hne
    rw [List.getElem?_map, hj, hedit]
    simp [hne]
  have hrepl : ∀ (j : Nat) (t : Task), s.tasks[j]? = some t → t._id = T._id →
      (s.tasks.map (fun task =>
        if some task._id = s.editingTaskId then updated else task))[j]? = some updated := by
    intro j t hj hid
    rw [List.getElem?_map, hj, hedit]
    simp [hid]
  have hat : (s.tasks.map (fun task =>
      if some task._id = s.editingTaskId then updated else task))[i]? = some updated :=
    hrepl i T hT rfl
  refine ⟨by simp, hat, hrepl, hkeep, ?_, rfl, rfl, ?_⟩
  · intro hnd j hji
    cases hj : s.tasks[j]? with
    | none => simp [List.getElem?_map, hj]
    | some t =>
      have hne : t._id ≠ T._id := by
        intro hid
        exact hji (index_unique_of_nodup s.tasks hnd j i t T hj hT hid)
      simpa [hj] using hkeep j t hj hne
  · intro hp hecho
    show Option.map Task.priority (s.tasks.map (fun task =>
      if some task._id = s.editingTaskId then updated else task))[i]? = some "high"
    rw [hat, Option.map_some', hecho, hp]

/-- C8, amended, on the scenario of the specification: after saving with an echoing
service, the entry for `taskA` has priority `high`, `taskB` is untouched and
edit mode is closed. -/
theorem saveEditedTask_success_witness :
    (saveEditedTask (echoService "x") editingState).1.tasks[0]? =
      some { taskA with priority := "high" } ∧
    (saveEditedTask (echoService "x") editingState).1.tasks[1]? = some taskB ∧
    (saveEditedTask (echoService "x") editingState).1.editingTaskId = none :=
  have h := saveEditedTask_success (echoService "x") editingState 0 taskA
    { taskA with priority := "high" } (by decide) (by decide) (by decide)
  ⟨h.2.1, (h.2.2.2.2.1 (by decide) 1 (by decide)).trans (by decide), h.2.2.2.2.2.1⟩

/-- C9 fails on the cancel button: in edit mode on `taskA`, with the priority
changed in the modal, the cancel action clears `editingTaskId` and keeps the
task list, and leaves the edit draft as it was instead of resetting it to the
empty draft; the other way out of edit mode, a successful `saveEditedTask`,
does reset it. -/
theorem cancelBtnOnClick_keeps_draft :
    inEditMode editingState = true ∧
    (cancelBtnOnClick editingState).editingTaskId = none ∧
    (cancelBtnOnClick editingState).tasks = editingState.tasks ∧
    (cancelBtnOnClick editingState).editedTask =
      { _id := some "a1", title := "Buy milk", description := "2%",
        dueDate := "2099-01-01", priority := "high" } ∧
    (cancelBtnOnClick editingState).editedTask ≠ emptyDraft ∧
    (saveEditedTask (echoService "x") editingState).1.editedTask = emptyDraft := by
  decide

/-- The parts of the state that the cancel action resets or keeps. -/
theorem cancelBtnOnClick_state (s : State) :
    (cancelBtnOnClick s).editingTaskId = none ∧
    inEditMode (cancelBtnOnClick s) = false ∧
    (cancelBtnOnClick s).tasks = s.tasks ∧
    (cancelBtnOnClick s).newTask = s.newTask ∧
    (cancelBtnOnClick s).errors = s.errors :=
  ⟨rfl, rfl, rfl, rfl, rfl⟩

/-- The draft left behind by the cancel action is overwritten by the next
`handleEditTask`, which gives the state it would give had the draft been
reset. -/
theorem handleEditTask_after_cancel (s : State) (t : Task) :
    handleEditTask t (cancelBtnOnClick s) =
      handleEditTask t { cancelBtnOnClick s with editedTask := emptyDraft } := rfl

/-! ## Well-formedness of the task list -/

theorem echoService_echoes (freshId : String) : EchoService (echoService freshId) := by
  intro req d t hb hf
  simp only [echoService, hb, FetchResult.response.injEq, Option.some.injEq, true_and] at hf
  subst hf
  exact ⟨rfl, rfl, rfl, rfl⟩

theorem tasksWellFormed_initial : tasksWellFormed State.initial.tasks = true := rfl

theorem Task.wellFormed_iff (t : Task) :
    t.wellFormed = true ↔ jsTrim t.title ≠ "" ∧ jsTrim t.description ≠ "" ∧ t.dueDate ≠ "" := by
  simp [Task.wellFormed, truthy, and_assoc]

/-- With an echoing service, `handleAddTask` keeps the list well formed. -/
theorem handleAddTask_wellFormed (fetch : Request → FetchResult) (s : State)
    (hecho : EchoService fetch) (hwf : tasksWellFormed s.tasks = true) :
    tasksWellFormed (handleAddTask fetch s).1.tasks = true := by
  cases hv : (validateForm s).2 with
  | false =>
    have : (handleAddTask fetch s).1 = (validateForm s).1 := by simp [handleAddTask, hv]
    rw [this]
    exact hwf
  | true =>
    by_cases hok : ∃ t, fetch (addRequest s) = .response true (some t)
    · obtain ⟨t, ht⟩ := hok
      have hr : (handleAddTask fetch s).1.tasks = s.tasks ++ [t] := by
        rw [handleAddTask_of_success fetch s t hv ht]
      obtain ⟨e1, e2, e3, _⟩ := hecho (addRequest s) s.newTask t rfl ht
      have hvalid := (validateForm_true_iff s).mp hv
      have hwt : t.wellFormed = true := by
        rw [Task.wellFormed_iff, e1, e2, e3]
        exact hvalid
      rw [hr]
      simp only [tasksWellFormed, List.all_append, List.all_cons, List.all_nil, Bool.and_true,
        Bool.and_eq_true]
      exact ⟨hwf, hwt⟩
    · have : (handleAddTask fetch s).1 = (validateForm s).1 := by
        simp only [handleAddTask, hv]
        cases hf : fetch (addRequest s) with
        | networkError => rfl
        | response ok body =>
          cases ok with
          | false => rfl
          | true =>
            cases body with
            | none => rfl
            | some t => exact absurd ⟨t, hf⟩ hok
      rw [this]
      exact hwf

/-- The function `handleDeleteTask` keeps the list well formed, whatever the
service answers. -/
theorem handleDeleteTask_wellFormed (fetch : Request → FetchResult) (taskId : String)
    (s : State) (hwf : tasksWellFormed s.tasks = true) :
    tasksWellFormed (handleDeleteTask fetch taskId s).1.tasks = true := by
  cases hf : fetch (deleteRequest taskId) with
  | networkError =>
    have : (handleDeleteTask fetch taskId s).1 = s := by simp [handleDeleteTask, hf]
    rw [this]
    exact hwf
  | response ok body =>
    have hr : (handleDeleteTask fetch taskId s).1.tasks =
        s.tasks.filter (fun task => task._id != taskId) := by
      simp [handleDeleteTask, hf]
    rw [hr]
    simp only [tasksWellFormed, List.all_eq_true] at hwf ⊢
    intro t ht
    exact hwf t (List.mem_filter.mp ht).1

/-- The state in which `taskA`, the only task of the list, is being edited and
its title has been erased in the modal. -/
def blankTitleEdit : State :=
  changeEditedTitle "" (handleEditTask taskA { State.initial with tasks := [taskA] })

/-- C10 fails on `saveEditedTask`: the list of `blankTitleEdit` is well formed
and the service echoes what it is sent, yet after saving the list holds a task
whose title is empty. -/
theorem saveEditedTask_breaks_wellFormed :
    tasksWellFormed blankTitleEdit.tasks = true ∧
    EchoService (echoService "x") ∧
    (saveEditedTask (echoService "x") blankTitleEdit).1.tasks =
      [{ _id := "a1", title := "", description := "2%", dueDate := "2099-01-01",
         priority := "low" }] ∧
    tasksWellFormed (saveEditedTask (echoService "x") blankTitleEdit).1.tasks = false :=
  ⟨by decide, echoService_echoes "x", by decide, by decide⟩

end ToDo

